import Mathlib

/-!
Verification of the Weinstein Stage 2 screener (weinstein_screener.py).

The development gives a shallow embedding of the core pipeline of the
screener: daily-to-weekly aggregation (to_weekly), rolling indicator
derivation (compute_indicators), buy-signal evaluation (is_weinstein_buy)
and the final market-capitalization ranking step of run_screener.

Modelling conventions:
- Prices and volumes are rationals (ℚ); a pandas NaN produced by a rolling
  or alignment operation is modelled as Option.none.  The raw daily input
  fields are total, matching the DailyBar data model (one value per field).
- Dates are day numbers (Nat) with the convention that day 0 is a Saturday,
  so the calendar week of day d is d / 7 and that week ends on its Friday,
  day 7 * (d / 7) + 6.  This matches the W-FRI resampling convention.
- A pandas dataframe column that may be absent (the RS columns, present
  only when a benchmark is supplied) is modelled by the hasRS flag of
  IndFrame together with none-valued fields.
-/

/-- Daily OHLCV bar (one trading session), as consumed by to_weekly. -/
structure DailyBar where
  day : Nat
  Open : ℚ
  High : ℚ
  Low : ℚ
  Close : ℚ
  Volume : ℚ
deriving Inhabited, DecidableEq

/-- Weekly OHLCV bar produced by to_weekly (weekEnd is the Friday label). -/
structure WeeklyBar where
  weekEnd : Nat
  Open : ℚ
  High : ℚ
  Low : ℚ
  Close : ℚ
  Volume : ℚ
deriving Inhabited, DecidableEq

-- ---------------------------
-- CONFIG (module constants of weinstein_screener.py)
-- ---------------------------

/-- SMA_WEEKS = 30. -/
def SMA_WEEKS : Nat := 30

/-- BASE_LOOKBACK_WEEKS = 20. -/
def BASE_LOOKBACK_WEEKS : Nat := 20

/-- VOL_AVG_WEEKS = 30. -/
def VOL_AVG_WEEKS : Nat := 30

/-- VOL_MULTIPLIER = 1.5. -/
def VOL_MULTIPLIER : ℚ := 3 / 2

/-- RS_REQUIRED = True. -/
def RS_REQUIRED : Bool := true

/-- RS_LOOKBACK = 8. -/
def RS_LOOKBACK : Nat := 8

-- ---------------------------
-- Aggregator: to_weekly (resample W-FRI, agg, dropna)
-- ---------------------------

/-- Group of daily bars falling in calendar week w (pandas W-FRI bucket). -/
def weekGroup (daily : List DailyBar) (w : Nat) : List DailyBar :=
  daily.filter (fun b => b.day / 7 == w)

/-- Aggregation of one weekly bucket, embedding
    agg(Open first, High max, Low min, Close last, Volume sum).
    A bucket with no bars yields an all-NaN row which resample's
    subsequent dropna removes; that is the none branch here. -/
def aggWeek (daily : List DailyBar) (w : Nat) : Option WeeklyBar :=
  match weekGroup daily w with
  | [] => none
  | b :: r =>
    some { weekEnd := 7 * w + 6
         , Open := b.Open
         , High := (r.map (fun x => x.High)).foldl max b.High
         , Low := (r.map (fun x => x.Low)).foldl min b.Low
         , Close := (r.getLastD b).Close
         , Volume := ((b :: r).map (fun x => x.Volume)).sum }

/-- Embedding of to_weekly: resample('W-FRI').agg(...).dropna().
    The output weeks are the distinct calendar weeks that contain at least
    one daily bar, in ascending order (resample emits all weeks of the
    span in ascending order; dropna removes exactly the all-NaN rows of
    the empty weeks, since the daily input fields are total). -/
def to_weekly (daily : List DailyBar) : List WeeklyBar :=
  (List.insertionSort (fun a b => a ≤ b)
      ((daily.map (fun b => b.day / 7)).dedup)).filterMap (aggWeek daily)

-- ---------------------------
-- Indicator Engine: compute_indicators
-- ---------------------------

/-- Row of the indicator dataframe built by compute_indicators. -/
structure IndRow where
  weekEnd : Nat
  Open : ℚ
  High : ℚ
  Low : ℚ
  Close : ℚ
  Volume : ℚ
  SMA30 : Option ℚ
  SMA30_slope : Option ℚ
  avg_vol30 : Option ℚ
  vol_spike : Bool
  B_Close : Option ℚ
  RS : Option ℚ
  RS_slope : Option ℚ
deriving Inhabited, DecidableEq

/-- Indicator dataframe: its rows plus whether the RS columns exist
    (pandas: the RS/RS_slope columns are added only when a benchmark
    series is supplied). -/
structure IndFrame where
  rows : List IndRow
  hasRS : Bool
deriving Inhabited, DecidableEq

/-- Value at position i of Series(xs).rolling(w).mean(): NaN until the
    window is full, then the mean of entries i+1-w .. i. -/
def rollingMeanAt (w : Nat) (xs : List ℚ) (i : Nat) : Option ℚ :=
  if i + 1 < w then none
  else some (((xs.take (i + 1)).drop (i + 1 - w)).sum / (w : ℚ))

/-- SMA30 column: w.Close.rolling(SMA_WEEKS).mean() at position i. -/
def smaAt (weekly : List WeeklyBar) (i : Nat) : Option ℚ :=
  rollingMeanAt SMA_WEEKS (weekly.map (fun b => b.Close)) i

/-- SMA30_slope column: w.SMA30.diff() at position i
    (NaN at position 0 and whenever either neighbour is NaN). -/
def smaSlopeAt (weekly : List WeeklyBar) (i : Nat) : Option ℚ :=
  if i = 0 then none
  else
    match smaAt weekly i, smaAt weekly (i - 1) with
    | some a, some b => some (a - b)
    | _, _ => none

/-- avg_vol30 column: w.Volume.rolling(VOL_AVG_WEEKS).mean() at position i. -/
def avgVolAt (weekly : List WeeklyBar) (i : Nat) : Option ℚ :=
  rollingMeanAt VOL_AVG_WEEKS (weekly.map (fun b => b.Volume)) i

/-- vol_spike column: w.Volume > VOL_MULTIPLIER * w.avg_vol30 at position i.
    A float comparison against NaN is False, hence the none branch. -/
def volSpikeAt (weekly : List WeeklyBar) (i : Nat) : Bool :=
  match avgVolAt weekly i with
  | none => false
  | some a => decide (VOL_MULTIPLIER * a < (weekly.map (fun b => b.Volume)).getD i 0)

/-- Close of the first benchmark bar whose weekEnd equals d, if any
    (the exact-date lookup performed by reindex). -/
def benchCloseAt (bench : List WeeklyBar) (d : Nat) : Option ℚ :=
  (bench.find? (fun b => b.weekEnd == d)).map (fun b => b.Close)

/-- B_Close column: benchmark_weekly.Close.reindex(w.index).ffill() at
    position i of the instrument index idx.  reindex keeps exact date
    matches (NaN elsewhere) and ffill propagates the last non-NaN value
    of that reindexed series, so the value at i is the benchmark close at
    the latest position j ≤ i whose date the benchmark has, none if no
    such position exists. -/
def bCloseAt (bench : List WeeklyBar) (idx : List Nat) (i : Nat) : Option ℚ :=
  ((idx.take (i + 1)).filterMap (benchCloseAt bench)).getLast?

/-- RS column: w.Close / w.B_Close at position i (NaN if B_Close is NaN). -/
def rsAt (weekly : List WeeklyBar) (bench : List WeeklyBar) (i : Nat) : Option ℚ :=
  (bCloseAt bench (weekly.map (fun b => b.weekEnd)) i).map
    (fun b => (weekly.map (fun x => x.Close)).getD i 0 / b)

/-- RS_slope column: w.RS.diff(periods=RS_LOOKBACK) at position i. -/
def rsSlopeAt (weekly : List WeeklyBar) (bench : List WeeklyBar) (i : Nat) : Option ℚ :=
  if i < RS_LOOKBACK then none
  else
    match rsAt weekly bench i, rsAt weekly bench (i - RS_LOOKBACK) with
    | some a, some b => some (a - b)
    | _, _ => none

/-- Row i of the dataframe built by compute_indicators. -/
def mkIndRow (weekly : List WeeklyBar) (benchmark_weekly : Option (List WeeklyBar))
    (i : Nat) : IndRow :=
  let bar := weekly.getD i default
  { weekEnd := bar.weekEnd
  , Open := bar.Open
  , High := bar.High
  , Low := bar.Low
  , Close := bar.Close
  , Volume := bar.Volume
  , SMA30 := smaAt weekly i
  , SMA30_slope := smaSlopeAt weekly i
  , avg_vol30 := avgVolAt weekly i
  , vol_spike := volSpikeAt weekly i
  , B_Close := match benchmark_weekly with
      | none => none
      | some b => bCloseAt b (weekly.map (fun x => x.weekEnd)) i
  , RS := match benchmark_weekly with
      | none => none
      | some b => rsAt weekly b i
  , RS_slope := match benchmark_weekly with
      | none => none
      | some b => rsSlopeAt weekly b i }

/-- Embedding of compute_indicators(weekly, benchmark_weekly). -/
def compute_indicators (weekly : List WeeklyBar)
    (benchmark_weekly : Option (List WeeklyBar)) : IndFrame :=
  { rows := (List.range weekly.length).map (mkIndRow weekly benchmark_weekly)
  , hasRS := benchmark_weekly.isSome }

-- ---------------------------
-- Signal Evaluator: is_weinstein_buy
-- ---------------------------

/-- The details dict built by is_weinstein_buy. -/
structure Details where
  close : ℚ
  prior_high : ℚ
  SMA30 : Option ℚ
  SMA30_slope : Option ℚ
  vol : ℚ
  avg_vol30 : Option ℚ
  vol_spike : Bool
  RS : Option ℚ
  RS_slope : Option ℚ
deriving Inhabited, DecidableEq

/-- Maximum of a float series as taken by pandas .max(); only ever applied
    to a nonempty slice in is_weinstein_buy, so the [] value is arbitrary. -/
def listMax : List ℚ → ℚ
  | [] => 0
  | a :: r => r.foldl max a

/-- The Close slice weekly_ind.Close.iloc[-(BASE_LOOKBACK_WEEKS+1):-1]:
    the BASE_LOOKBACK_WEEKS closes immediately preceding the last row. -/
def priorCloses (f : IndFrame) : List ℚ :=
  (((f.rows.map (fun r => r.Close)).drop
      (f.rows.length - (BASE_LOOKBACK_WEEKS + 1))).take BASE_LOOKBACK_WEEKS)

/-- Embedding of is_weinstein_buy(weekly_ind).  Returns the buy decision
    and the details dict (which the source builds and returns whenever the
    length check passes, independently of the decision). -/
def is_weinstein_buy (f : IndFrame) : Bool × Option Details :=
  if f.rows.length < SMA_WEEKS + BASE_LOOKBACK_WEEKS then (false, none)
  else
    let last := f.rows.getLastD default
    let prior_high := listMax (priorCloses f)
    let cond_breakout := decide (prior_high < last.Close)
    let cond_above_sma :=
      match last.SMA30 with
      | none => false
      | some s => decide (s < last.Close)
    let cond_sma_up :=
      match last.SMA30_slope with
      | none => false
      | some s => decide (0 < s)
    let cond_vol := last.avg_vol30.isSome && last.vol_spike
    let cond_rs :=
      if f.hasRS && RS_REQUIRED then
        match last.RS_slope with
        | none => false
        | some s => decide (0 < s)
      else true
    let details : Details :=
      { close := last.Close
      , prior_high := prior_high
      , SMA30 := last.SMA30
      , SMA30_slope := last.SMA30_slope
      , vol := last.Volume
      , avg_vol30 := last.avg_vol30
      , vol_spike := last.vol_spike
      , RS := if f.hasRS then last.RS else none
      , RS_slope := if f.hasRS then last.RS_slope else none }
    (cond_breakout && cond_above_sma && cond_sma_up && cond_vol && cond_rs,
     some details)

-- ---------------------------
-- Orchestrator ranking step of run_screener
-- ---------------------------

/-- Candidate record collected by run_screener: the details of a passing
    instrument, its ticker, and the (optional) fetched market cap. -/
structure CandidateRecord where
  ticker : String
  details : Details
  market_cap : Option ℚ
deriving Inhabited, DecidableEq

/-- Comparison used to embed sort_values(by=market_cap, ascending=False):
    larger caps first, and a missing cap (pandas NaN, placed last by the
    default na_position) after every present one. -/
def capGE (a b : CandidateRecord) : Prop :=
  match a.market_cap, b.market_cap with
  | some x, some y => y ≤ x
  | some _, none => True
  | none, some _ => False
  | none, none => True

instance : DecidableRel capGE := by
  intro a b
  unfold capGE
  cases a.market_cap <;> cases b.market_cap <;> exact inferInstance

instance : IsTotal CandidateRecord capGE := by
  constructor
  intro a b
  unfold capGE
  cases a.market_cap <;> cases b.market_cap <;> simp [le_total]

instance : IsTrans CandidateRecord capGE := by
  constructor
  intro a b c hab hbc
  unfold capGE at hab hbc ⊢
  cases ha : a.market_cap <;> cases hb : b.market_cap <;> cases hc : c.market_cap <;>
    simp_all <;> exact le_trans hbc hab

/-- Embedding of the ranking step of run_screener:
    df_cand.sort_values(by=market_cap, ascending=False). -/
def sort_by_market_cap (l : List CandidateRecord) : List CandidateRecord :=
  List.insertionSort capGE l

-- ---------------------------
-- Concrete series used to instantiate the theorems
-- ---------------------------

/-- A flat weekly bar with a given week-end day, close and volume. -/
def mkBar (d : Nat) (c v : ℚ) : WeeklyBar :=
  { weekEnd := d, Open := c, High := c, Low := c, Close := c, Volume := v }

/-- Fifty weeks of rising closes with a volume spike on the last week. -/
def Wrise : List WeeklyBar :=
  (List.range 50).map (fun i => mkBar (7 * i + 6) ((i : ℚ) + 1) (if i = 49 then 100 else 10))

/-- A flat fifty-week benchmark series on the same week-end dates. -/
def Bflat : List WeeklyBar :=
  (List.range 50).map (fun i => mkBar (7 * i + 6) 1 1)

/-- Fifty all-default indicator rows with the RS columns present. -/
def Fzero : IndFrame := { rows := List.replicate 50 default, hasRS := true }

/-- Fifty all-default indicator rows without the RS columns. -/
def FzeroNoRS : IndFrame := { rows := List.replicate 50 default, hasRS := false }

/-- Thirty weeks of volume 10 with a final week of volume 16. -/
def Wvol : List WeeklyBar :=
  (List.range 30).map (fun i => mkBar (7 * i + 6) 1 (if i = 29 then 16 else 10))

/-- Thirty weeks whose volumes sum to zero with a positive final volume. -/
def WzeroAvg : List WeeklyBar :=
  (List.range 30).map (fun i => mkBar (7 * i + 6) 1 (if i = 0 then -5 else if i = 29 then 5 else 0))

/-- Thirty weeks of closes 1, 2, ..., 30. -/
def Wlin : List WeeklyBar :=
  (List.range 30).map (fun i => mkBar (7 * i + 6) ((i : ℚ) + 1) 1)

/-- Instrument series with week-end days 6 and 20 (it has no bar in the
    week ending on day 13). -/
def Wgap : List WeeklyBar := [mkBar 6 10 1, mkBar 20 10 1]

/-- Benchmark series with bars in the weeks ending on days 6 and 13, the
    second of which the instrument series Wgap lacks. -/
def Bgap : List WeeklyBar := [mkBar 6 2 1, mkBar 13 5 1]

/-- Three daily bars: two in the week of days 0-6 and one in the next week. -/
def Ddaily : List DailyBar :=
  [ { day := 0, Open := 1, High := 5, Low := 0, Close := 2, Volume := 10 }
  , { day := 1, Open := 3, High := 4, Low := 2, Close := 3, Volume := 20 }
  , { day := 8, Open := 7, High := 9, Low := 6, Close := 8, Volume := 30 } ]

/-- A candidate record with only the fields relevant to ranking. -/
def mkCand (t : String) (c : Option ℚ) : CandidateRecord :=
  { ticker := t, details := default, market_cap := c }

/-- Reference definition taken from the words of the specification (for
    claim C4 only, to be compared against the code's alignment): the
    benchmark's last known close, i.e. the close of the last benchmark bar
    whose week-end is at or before day d, none when the benchmark has no
    bar at or before d (benchmark bars in ascending date order). -/
def lastKnownBClose (bench : List WeeklyBar) (d : Nat) : Option ℚ :=
  ((bench.filter (fun b => decide (b.weekEnd ≤ d))).getLast?).map (fun b => b.Close)

-- ---------------------------
-- Helper lemmas
-- ---------------------------

attribute [local semireducible] Rat.add Rat.sub Rat.mul Rat.inv Rat.ofScientific

set_option maxRecDepth 20000

/-- Value of getD inside the bounds of the list. -/
theorem getD_in_bounds {α : Type _} (l : List α) {i : Nat} (h : i < l.length) (d : α) :
    l.getD i d = l[i] := by
  simp [List.getD_eq_getElem?_getD, List.getElem?_eq_getElem h]

/-- Value of getD on a list built by mapping over List.range. -/
theorem getD_map_range {α : Type _} (g : Nat → α) {n i : Nat} (h : i < n) (d : α) :
    ((List.range n).map g).getD i d = g i := by
  have hi : i < ((List.range n).map g).length := by simpa using h
  rw [getD_in_bounds _ hi, List.getElem_map, List.getElem_range]

/-- getD commutes with map inside the bounds of the list. -/
theorem getD_map {α β : Type _} (f : α → β) (l : List α) {i : Nat} (h : i < l.length)
    (d₁ : β) (d₂ : α) : (l.map f).getD i d₁ = f (l.getD i d₂) := by
  have hi : i < (l.map f).length := by simpa using h
  rw [getD_in_bounds _ hi, List.getElem_map, getD_in_bounds _ h]

/-- The defaulted last element is the element at the last position. -/
theorem getLastD_eq_getD {α : Type _} (l : List α) (d : α) :
    l.getLastD d = l.getD (l.length - 1) d := by
  rw [List.getLastD_eq_getLast?, List.getLast?_eq_getElem?, List.getD_eq_getElem?_getD]

/-- Length of the indicator dataframe equals the weekly series length. -/
theorem rows_length (weekly : List WeeklyBar) (bench : Option (List WeeklyBar)) :
    (compute_indicators weekly bench).rows.length = weekly.length := by
  simp [compute_indicators]

/-- Row i of the indicator dataframe, inside bounds. -/
theorem rows_getD (weekly : List WeeklyBar) (bench : Option (List WeeklyBar)) {i : Nat}
    (h : i < weekly.length) :
    (compute_indicators weekly bench).rows.getD i default = mkIndRow weekly bench i := by
  simp only [compute_indicators]
  rw [getD_map_range _ h]

/-- The last row of the indicator dataframe, for a nonempty weekly series. -/
theorem rows_getLastD (weekly : List WeeklyBar) (bench : Option (List WeeklyBar))
    (h : 0 < weekly.length) :
    (compute_indicators weekly bench).rows.getLastD default
      = mkIndRow weekly bench (weekly.length - 1) := by
  rw [getLastD_eq_getD, rows_length]
  exact rows_getD weekly bench (by omega)

-- ---------------------------
-- Claim C7: insufficient history is a normal no-decision
-- ---------------------------

/-- Claim C7: for every indicator series with fewer than
    trend_window + base_lookback_weeks rows, is_weinstein_buy returns
    not-passing with no snapshot (and, being a total Lean function,
    raises no error). -/
theorem insufficient_history_no_decision (f : IndFrame)
    (h : f.rows.length < SMA_WEEKS + BASE_LOOKBACK_WEEKS) :
    is_weinstein_buy f = (false, none) := by
  unfold is_weinstein_buy
  rw [if_pos h]

/-- Witness for claim C7 at the empty indicator series. -/
theorem insufficient_history_no_decision_witness :
    (IndFrame.mk [] true).rows.length < SMA_WEEKS + BASE_LOOKBACK_WEEKS ∧
      is_weinstein_buy (IndFrame.mk [] true) = (false, none) :=
  ⟨by decide, insufficient_history_no_decision (IndFrame.mk [] true) (by decide)⟩

-- ---------------------------
-- Claim C2: when the metric snapshot is emitted
-- ---------------------------

/-- Claim C2 counterexample: on the fifty-row all-zero indicator series the
    evaluation is not-passing and yet the snapshot component is present,
    refuting the claim that a not-passing evaluation emits no snapshot. -/
theorem snapshot_emitted_on_fail_cex :
    (is_weinstein_buy Fzero).1 = false ∧ (is_weinstein_buy Fzero).2 ≠ none := by
  decide

/-- Claim C2 (amended): the snapshot component is absent exactly when the
    series has fewer than trend_window + base_lookback_weeks rows; whenever
    it is present it is the snapshot of the last row's raw and derived
    fields, including prior_high, whether or not the result is passing. -/
theorem snapshot_presence_amended (f : IndFrame) :
    ((is_weinstein_buy f).2 = none ↔ f.rows.length < SMA_WEEKS + BASE_LOOKBACK_WEEKS) ∧
    (∀ d, (is_weinstein_buy f).2 = some d →
      d.close = (f.rows.getLastD default).Close ∧
      d.prior_high = listMax (priorCloses f) ∧
      d.SMA30 = (f.rows.getLastD default).SMA30 ∧
      d.SMA30_slope = (f.rows.getLastD default).SMA30_slope ∧
      d.vol = (f.rows.getLastD default).Volume ∧
      d.avg_vol30 = (f.rows.getLastD default).avg_vol30 ∧
      d.vol_spike = (f.rows.getLastD default).vol_spike ∧
      d.RS = (if f.hasRS then (f.rows.getLastD default).RS else none) ∧
      d.RS_slope = (if f.hasRS then (f.rows.getLastD default).RS_slope else none)) := by
  unfold is_weinstein_buy
  by_cases h : f.rows.length < SMA_WEEKS + BASE_LOOKBACK_WEEKS
  · rw [if_pos h]
    exact ⟨by simpa using h, by intro d hd; simp at hd⟩
  · rw [if_neg h]
    refine ⟨by simpa using h, ?_⟩
    intro d hd
    simp only [] at hd
    cases hd
    exact ⟨rfl, rfl, rfl, rfl, rfl, rfl, rfl, rfl, rfl⟩

-- ---------------------------
-- Claim C3: volume-spike flag semantics
-- ---------------------------

/-- Claim C3: in the indicator series the volume-spike flag at row i is
    true iff the row's volume strictly exceeds VOL_MULTIPLIER times the
    rolling average volume at that row; it is false (not missing) when the
    average volume is undefined, and false when the volume exactly equals
    the threshold. -/
theorem vol_spike_threshold_spec (weekly : List WeeklyBar)
    (bench : Option (List WeeklyBar)) (i : Nat) (hi : i < weekly.length) :
    (((compute_indicators weekly bench).rows.getD i default).avg_vol30 = none →
        ((compute_indicators weekly bench).rows.getD i default).vol_spike = false) ∧
    (∀ a, ((compute_indicators weekly bench).rows.getD i default).avg_vol30 = some a →
        (((compute_indicators weekly bench).rows.getD i default).vol_spike = true ↔
          VOL_MULTIPLIER * a <
            ((compute_indicators weekly bench).rows.getD i default).Volume)) ∧
    (∀ a, ((compute_indicators weekly bench).rows.getD i default).avg_vol30 = some a →
        ((compute_indicators weekly bench).rows.getD i default).Volume =
            VOL_MULTIPLIER * a →
        ((compute_indicators weekly bench).rows.getD i default).vol_spike = false) := by
  rw [rows_getD weekly bench hi]
  have hv : (weekly.map (fun b => b.Volume)).getD i 0 = (weekly.getD i default).Volume :=
    getD_map _ _ hi _ _
  simp only [mkIndRow]
  unfold volSpikeAt
  refine ⟨fun h => by rw [h], fun a ha => ?_, fun a ha hEq => ?_⟩
  · rw [ha, hv]
    exact decide_eq_true_iff
  · rw [ha, hv, hEq]
    simp

/-- Witness for claim C3 on a thirty-week series whose final volume of 16
    exceeds 1.5 times its rolling average volume of 10.2. -/
theorem vol_spike_threshold_spec_witness :
    29 < Wvol.length ∧
    ((((compute_indicators Wvol none).rows.getD 29 default).avg_vol30 = none →
        ((compute_indicators Wvol none).rows.getD 29 default).vol_spike = false) ∧
    (∀ a, ((compute_indicators Wvol none).rows.getD 29 default).avg_vol30 = some a →
        (((compute_indicators Wvol none).rows.getD 29 default).vol_spike = true ↔
          VOL_MULTIPLIER * a <
            ((compute_indicators Wvol none).rows.getD 29 default).Volume)) ∧
    (∀ a, ((compute_indicators Wvol none).rows.getD 29 default).avg_vol30 = some a →
        ((compute_indicators Wvol none).rows.getD 29 default).Volume =
            VOL_MULTIPLIER * a →
        ((compute_indicators Wvol none).rows.getD 29 default).vol_spike = false)) :=
  ⟨by decide, vol_spike_threshold_spec Wvol none 29 (by decide)⟩

-- ---------------------------
-- Claim C9: spike flag over a zero average volume
-- ---------------------------

/-- Claim C9: for every indicator row whose rolling average volume is
    defined and equals zero, the volume-spike flag is true iff the row's
    volume is strictly positive. -/
theorem zero_avg_volume_spike (weekly : List WeeklyBar)
    (bench : Option (List WeeklyBar)) (i : Nat) (hi : i < weekly.length)
    (h0 : ((compute_indicators weekly bench).rows.getD i default).avg_vol30 = some 0) :
    ((compute_indicators weekly bench).rows.getD i default).vol_spike = true ↔
      0 < ((compute_indicators weekly bench).rows.getD i default).Volume := by
  rw [rows_getD weekly bench hi] at h0 ⊢
  have hv : (weekly.map (fun b => b.Volume)).getD i 0 = (weekly.getD i default).Volume :=
    getD_map _ _ hi _ _
  simp only [mkIndRow] at h0 ⊢
  unfold volSpikeAt
  rw [h0, hv]
  simp

/-- Witness for claim C9 on a thirty-week series whose volumes sum to zero
    (rolling average zero) with a positive final volume. -/
theorem zero_avg_volume_spike_witness :
    29 < WzeroAvg.length ∧
    (((compute_indicators WzeroAvg none).rows.getD 29 default).avg_vol30 = some 0) ∧
    (((compute_indicators WzeroAvg none).rows.getD 29 default).vol_spike = true ↔
      0 < ((compute_indicators WzeroAvg none).rows.getD 29 default).Volume) :=
  ⟨by decide, by decide, zero_avg_volume_spike WzeroAvg none 29 (by decide) (by decide)⟩

/-- Witness for the amended claim C2 at a concrete fifty-row series. -/
theorem snapshot_presence_amended_witness :
    ((is_weinstein_buy FzeroNoRS).2 = none ↔
        FzeroNoRS.rows.length < SMA_WEEKS + BASE_LOOKBACK_WEEKS) ∧
    (∀ d, (is_weinstein_buy FzeroNoRS).2 = some d →
      d.close = (FzeroNoRS.rows.getLastD default).Close ∧
      d.prior_high = listMax (priorCloses FzeroNoRS) ∧
      d.SMA30 = (FzeroNoRS.rows.getLastD default).SMA30 ∧
      d.SMA30_slope = (FzeroNoRS.rows.getLastD default).SMA30_slope ∧
      d.vol = (FzeroNoRS.rows.getLastD default).Volume ∧
      d.avg_vol30 = (FzeroNoRS.rows.getLastD default).avg_vol30 ∧
      d.vol_spike = (FzeroNoRS.rows.getLastD default).vol_spike ∧
      d.RS = (if FzeroNoRS.hasRS then (FzeroNoRS.rows.getLastD default).RS else none) ∧
      d.RS_slope =
        (if FzeroNoRS.hasRS then (FzeroNoRS.rows.getLastD default).RS_slope else none)) :=
  snapshot_presence_amended FzeroNoRS

-- ---------------------------
-- Claim C8: final candidate table ranking
-- ---------------------------

/-- Claim C8: the ranking step permutes the collected candidate records and
    orders them so that whenever a later record has a known market
    capitalization, every earlier record also has one at least as large;
    in particular records of unknown capitalization come after all records
    of known capitalization and the known ones are in descending order. -/
theorem candidates_sorted_by_cap_desc (l : List CandidateRecord) :
    (sort_by_market_cap l).Perm l ∧
    (sort_by_market_cap l).Pairwise
      (fun a b => ∀ y, b.market_cap = some y →
        ∃ x, a.market_cap = some x ∧ y ≤ x) := by
  constructor
  · exact List.perm_insertionSort capGE l
  · have hs := List.sorted_insertionSort capGE l
    refine List.Pairwise.imp ?_ hs
    intro a b hab y hy
    unfold capGE at hab
    cases hx : a.market_cap with
    | none => rw [hx, hy] at hab; exact absurd hab (by simp)
    | some x =>
      rw [hx, hy] at hab
      exact ⟨x, rfl, hab⟩

/-- Witness for claim C8 on a three-candidate table with one unknown
    capitalization. -/
theorem candidates_sorted_by_cap_desc_witness :
    (sort_by_market_cap [mkCand "a" none, mkCand "b" (some 5), mkCand "c" (some 7)]).Perm
        [mkCand "a" none, mkCand "b" (some 5), mkCand "c" (some 7)] ∧
    (sort_by_market_cap [mkCand "a" none, mkCand "b" (some 5), mkCand "c" (some 7)]).Pairwise
      (fun a b => ∀ y, b.market_cap = some y →
        ∃ x, a.market_cap = some x ∧ y ≤ x) :=
  candidates_sorted_by_cap_desc [mkCand "a" none, mkCand "b" (some 5), mkCand "c" (some 7)]

-- ---------------------------
-- foldl max / min helpers and the evaluator decision lemma
-- ---------------------------

/-- A fold by max dominates its initial value. -/
theorem le_foldl_max (l : List ℚ) (a : ℚ) : a ≤ l.foldl max a := by
  induction l generalizing a with
  | nil => exact le_refl a
  | cons c t ih => exact le_trans (le_max_left a c) (ih (max a c))

/-- A fold by max dominates every element of the list. -/
theorem mem_le_foldl_max {x : ℚ} {l : List ℚ} (hx : x ∈ l) (a : ℚ) :
    x ≤ l.foldl max a := by
  induction l generalizing a with
  | nil => cases hx
  | cons c t ih =>
    rcases List.mem_cons.mp hx with rfl | hm
    · exact le_trans (le_max_right a x) (le_foldl_max t (max a x))
    · exact ih hm (max a c)

/-- A fold by max is the initial value or one of the elements. -/
theorem foldl_max_mem (l : List ℚ) (a : ℚ) : l.foldl max a = a ∨ l.foldl max a ∈ l := by
  induction l generalizing a with
  | nil => exact Or.inl rfl
  | cons c t ih =>
    rcases ih (max a c) with h | h
    · rcases max_choice a c with hc | hc
      · left
        rw [List.foldl_cons, h, hc]
      · right
        rw [List.foldl_cons, h, hc]
        exact List.mem_cons_self c t
    · right
      exact List.mem_cons_of_mem c h

/-- A fold by min is dominated by its initial value. -/
theorem foldl_min_le (l : List ℚ) (a : ℚ) : l.foldl min a ≤ a := by
  induction l generalizing a with
  | nil => exact le_refl a
  | cons c t ih => exact le_trans (ih (min a c)) (min_le_left a c)

/-- A fold by min is dominated by every element of the list. -/
theorem foldl_min_le_mem {x : ℚ} {l : List ℚ} (hx : x ∈ l) (a : ℚ) :
    l.foldl min a ≤ x := by
  induction l generalizing a with
  | nil => cases hx
  | cons c t ih =>
    rcases List.mem_cons.mp hx with rfl | hm
    · exact le_trans (foldl_min_le t (min a x)) (min_le_right a x)
    · exact ih hm (min a c)

/-- A fold by min is the initial value or one of the elements. -/
theorem foldl_min_mem (l : List ℚ) (a : ℚ) : l.foldl min a = a ∨ l.foldl min a ∈ l := by
  induction l generalizing a with
  | nil => exact Or.inl rfl
  | cons c t ih =>
    rcases ih (min a c) with h | h
    · rcases min_choice a c with hc | hc
      · left
        rw [List.foldl_cons, h, hc]
      · right
        rw [List.foldl_cons, h, hc]
        exact List.mem_cons_self c t
    · right
      exact List.mem_cons_of_mem c h

/-- Strict comparison against the series maximum is the pointwise strict
    comparison, for a nonempty series. -/
theorem listMax_lt_iff {l : List ℚ} (hl : l ≠ []) (a : ℚ) :
    listMax l < a ↔ ∀ c ∈ l, c < a := by
  cases l with
  | nil => exact absurd rfl hl
  | cons b t =>
    show List.foldl max b t < a ↔ ∀ c ∈ b :: t, c < a
    constructor
    · intro h c hc
      rcases List.mem_cons.mp hc with rfl | hm
      · exact lt_of_le_of_lt (le_foldl_max t c) h
      · exact lt_of_le_of_lt (mem_le_foldl_max hm b) h
    · intro h
      rcases foldl_max_mem t b with he | he
      · rw [he]
        exact h b (List.mem_cons_self b t)
      · exact h _ (List.mem_cons_of_mem b he)

/-- The prior-close window has exactly BASE_LOOKBACK_WEEKS entries whenever
    the series is long enough. -/
theorem priorCloses_length (f : IndFrame)
    (h : BASE_LOOKBACK_WEEKS + 1 ≤ f.rows.length) :
    (priorCloses f).length = BASE_LOOKBACK_WEEKS := by
  unfold priorCloses
  rw [List.length_take, List.length_drop, List.length_map]
  unfold BASE_LOOKBACK_WEEKS at h ⊢
  omega

/-- Decision of is_weinstein_buy on a series with enough history, split
    into the five conditions of the source. -/
theorem is_buy_fst_iff (f : IndFrame)
    (h : SMA_WEEKS + BASE_LOOKBACK_WEEKS ≤ f.rows.length) :
    (is_weinstein_buy f).1 = true ↔
      ((∀ c ∈ priorCloses f, c < (f.rows.getLastD default).Close) ∧
       (∃ s, (f.rows.getLastD default).SMA30 = some s ∧
          s < (f.rows.getLastD default).Close) ∧
       (∃ s, (f.rows.getLastD default).SMA30_slope = some s ∧ 0 < s) ∧
       ((f.rows.getLastD default).avg_vol30.isSome = true ∧
        (f.rows.getLastD default).vol_spike = true) ∧
       (f.hasRS = true → ∃ s, (f.rows.getLastD default).RS_slope = some s ∧ 0 < s)) := by
  have hne : priorCloses f ≠ [] := by
    have hl : BASE_LOOKBACK_WEEKS + 1 ≤ f.rows.length := by
      have h30 : SMA_WEEKS = 30 := rfl
      rw [h30] at h
      omega
    have := priorCloses_length f hl
    intro hemp
    rw [hemp] at this
    simp [BASE_LOOKBACK_WEEKS] at this
  rw [← listMax_lt_iff hne]
  unfold is_weinstein_buy
  rw [if_neg (Nat.not_lt.mpr h)]
  simp only [Bool.and_eq_true, decide_eq_true_eq]
  cases h1 : (f.rows.getLastD default).SMA30 <;>
  cases h2 : (f.rows.getLastD default).SMA30_slope <;>
  cases h3 : (f.rows.getLastD default).RS_slope <;>
  cases h4 : f.hasRS <;>
  simp [h1, h2, h3, h4, RS_REQUIRED, and_assoc]

-- ---------------------------
-- Claim C1: the five buy conditions
-- ---------------------------

/-- Claim C1: on an indicator series computed with a benchmark and holding
    at least trend_window + base_lookback_weeks rows, is_weinstein_buy
    passes iff, on the last row: every close of the twenty preceding weeks
    is below the last close (breakout above the prior high), the trend
    average exists and is below the close, the trend slope exists and is
    positive, the volume-spike flag is set, and (relative strength being
    required) the relative-strength slope exists and is positive; a missing
    required value makes its condition false rather than an error. -/
theorem evaluate_pass_iff_five_conditions (weekly bench : List WeeklyBar)
    (hlen : SMA_WEEKS + BASE_LOOKBACK_WEEKS ≤ weekly.length) :
    (is_weinstein_buy (compute_indicators weekly (some bench))).1 = true ↔
      ((∀ c ∈ priorCloses (compute_indicators weekly (some bench)),
          c < ((compute_indicators weekly (some bench)).rows.getLastD default).Close) ∧
       (∃ s, ((compute_indicators weekly (some bench)).rows.getLastD default).SMA30
              = some s ∧
          s < ((compute_indicators weekly (some bench)).rows.getLastD default).Close) ∧
       (∃ s, ((compute_indicators weekly (some bench)).rows.getLastD default).SMA30_slope
              = some s ∧ 0 < s) ∧
       ((compute_indicators weekly (some bench)).rows.getLastD default).vol_spike = true ∧
       (RS_REQUIRED = true →
          ∃ s, ((compute_indicators weekly (some bench)).rows.getLastD default).RS_slope
              = some s ∧ 0 < s)) := by
  have hrows : SMA_WEEKS + BASE_LOOKBACK_WEEKS
      ≤ (compute_indicators weekly (some bench)).rows.length := by
    rw [rows_length]
    exact hlen
  rw [is_buy_fst_iff _ hrows]
  have hpos : 0 < weekly.length := Nat.lt_of_lt_of_le (by decide) hlen
  have hlast := rows_getLastD weekly (some bench) hpos
  rw [hlast]
  have hvol : (mkIndRow weekly (some bench) (weekly.length - 1)).vol_spike = true →
      (mkIndRow weekly (some bench) (weekly.length - 1)).avg_vol30.isSome = true := by
    simp only [mkIndRow]
    unfold volSpikeAt
    cases ha : avgVolAt weekly (weekly.length - 1) with
    | none =>
      intro hs
      simp at hs
    | some a =>
      intro _
      rfl
  have hRS : (compute_indicators weekly (some bench)).hasRS = true := rfl
  constructor
  · rintro ⟨c1, c2, c3, ⟨_, c4⟩, c5⟩
    exact ⟨c1, c2, c3, c4, fun _ => c5 hRS⟩
  · rintro ⟨c1, c2, c3, c4, c5⟩
    exact ⟨c1, c2, c3, ⟨hvol c4, c4⟩, fun _ => c5 rfl⟩

/-- Witness for claim C1 on fifty weeks of rising closes, spiking final
    volume and a flat benchmark. -/
theorem evaluate_pass_iff_five_conditions_witness :
    SMA_WEEKS + BASE_LOOKBACK_WEEKS ≤ Wrise.length ∧
    ((is_weinstein_buy (compute_indicators Wrise (some Bflat))).1 = true ↔
      ((∀ c ∈ priorCloses (compute_indicators Wrise (some Bflat)),
          c < ((compute_indicators Wrise (some Bflat)).rows.getLastD default).Close) ∧
       (∃ s, ((compute_indicators Wrise (some Bflat)).rows.getLastD default).SMA30
              = some s ∧
          s < ((compute_indicators Wrise (some Bflat)).rows.getLastD default).Close) ∧
       (∃ s, ((compute_indicators Wrise (some Bflat)).rows.getLastD default).SMA30_slope
              = some s ∧ 0 < s) ∧
       ((compute_indicators Wrise (some Bflat)).rows.getLastD default).vol_spike = true ∧
       (RS_REQUIRED = true →
          ∃ s, ((compute_indicators Wrise (some Bflat)).rows.getLastD default).RS_slope
              = some s ∧ 0 < s))) :=
  ⟨by decide, evaluate_pass_iff_five_conditions Wrise Bflat (by decide)⟩

-- ---------------------------
-- Claim C10: the RS condition is vacuous without a benchmark
-- ---------------------------

/-- Claim C10: on an indicator series computed without a benchmark (no RS
    columns), is_weinstein_buy ignores the relative-strength condition even
    though the requirement toggle is on, so the series passes exactly when
    the breakout, above-trend, rising-trend and volume-spike conditions
    hold on the last row. -/
theorem no_benchmark_rs_vacuous (weekly : List WeeklyBar)
    (hlen : SMA_WEEKS + BASE_LOOKBACK_WEEKS ≤ weekly.length) :
    RS_REQUIRED = true ∧
    ((is_weinstein_buy (compute_indicators weekly none)).1 = true ↔
      ((∀ c ∈ priorCloses (compute_indicators weekly none),
          c < ((compute_indicators weekly none).rows.getLastD default).Close) ∧
       (∃ s, ((compute_indicators weekly none).rows.getLastD default).SMA30 = some s ∧
          s < ((compute_indicators weekly none).rows.getLastD default).Close) ∧
       (∃ s, ((compute_indicators weekly none).rows.getLastD default).SMA30_slope
              = some s ∧ 0 < s) ∧
       ((compute_indicators weekly none).rows.getLastD default).vol_spike = true)) := by
  refine ⟨rfl, ?_⟩
  have hrows : SMA_WEEKS + BASE_LOOKBACK_WEEKS
      ≤ (compute_indicators weekly none).rows.length := by
    rw [rows_length]
    exact hlen
  rw [is_buy_fst_iff _ hrows]
  have hpos : 0 < weekly.length := Nat.lt_of_lt_of_le (by decide) hlen
  have hlast := rows_getLastD weekly none hpos
  rw [hlast]
  have hvol : (mkIndRow weekly none (weekly.length - 1)).vol_spike = true →
      (mkIndRow weekly none (weekly.length - 1)).avg_vol30.isSome = true := by
    simp only [mkIndRow]
    unfold volSpikeAt
    cases ha : avgVolAt weekly (weekly.length - 1) with
    | none =>
      intro hs
      simp at hs
    | some a =>
      intro _
      rfl
  constructor
  · rintro ⟨c1, c2, c3, ⟨_, c4⟩, _⟩
    exact ⟨c1, c2, c3, c4⟩
  · rintro ⟨c1, c2, c3, c4⟩
    refine ⟨c1, c2, c3, ⟨hvol c4, c4⟩, ?_⟩
    intro hfalse
    exact absurd hfalse (by simp [compute_indicators])

/-- Witness for claim C10 on the rising fifty-week series evaluated with
    no benchmark. -/
theorem no_benchmark_rs_vacuous_witness :
    SMA_WEEKS + BASE_LOOKBACK_WEEKS ≤ Wrise.length ∧
    (RS_REQUIRED = true ∧
    ((is_weinstein_buy (compute_indicators Wrise none)).1 = true ↔
      ((∀ c ∈ priorCloses (compute_indicators Wrise none),
          c < ((compute_indicators Wrise none).rows.getLastD default).Close) ∧
       (∃ s, ((compute_indicators Wrise none).rows.getLastD default).SMA30 = some s ∧
          s < ((compute_indicators Wrise none).rows.getLastD default).Close) ∧
       (∃ s, ((compute_indicators Wrise none).rows.getLastD default).SMA30_slope
              = some s ∧ 0 < s) ∧
       ((compute_indicators Wrise none).rows.getLastD default).vol_spike = true))) :=
  ⟨by decide, no_benchmark_rs_vacuous Wrise (by decide)⟩

-- ---------------------------
-- Claim C6: trend average and trend slope
-- ---------------------------

/-- getD of a take, below the cut. -/
theorem getD_take {α : Type _} (l : List α) {m k : Nat} (h : k < m) (d : α) :
    (l.take m).getD k d = l.getD k d := by
  rw [List.getD_eq_getElem?_getD, List.getD_eq_getElem?_getD, List.getElem?_take_of_lt h]

/-- Sum of the length-w window ending at position i, re-indexed as the sum
    of the w entries at positions i, i-1, ..., i-w+1. -/
theorem take_drop_sum_eq (l : List ℚ) (i w : Nat) (hw : w ≤ i + 1) (hi : i < l.length) :
    ((l.take (i + 1)).drop (i + 1 - w)).sum
      = ((List.range w).map (fun k => l.getD (i - k) 0)).sum := by
  induction w with
  | zero =>
    rw [List.drop_eq_nil_of_le]
    · simp
    · rw [List.length_take]
      omega
  | succ w ih =>
    have hlt : i + 1 - (w + 1) < (l.take (i + 1)).length := by
      rw [List.length_take]
      omega
    rw [List.drop_eq_getElem_cons hlt, List.sum_cons]
    have h1 : i + 1 - (w + 1) + 1 = i + 1 - w := by omega
    rw [h1, ih (by omega)]
    rw [List.range_succ, List.map_append, List.sum_append]
    rw [← getD_in_bounds (l.take (i + 1)) hlt 0, getD_take _ (by omega) 0]
    have h3 : i + 1 - (w + 1) = i - w := by omega
    rw [h3]
    simp [add_comm]

/-- Claim C6: the trend average is missing on each of the first
    trend_window - 1 rows and from the first full-window row onward equals
    the arithmetic mean of the closes of the trend_window most recent weeks
    including the row; the trend slope is the difference of the trend
    averages of the row and its predecessor, missing at row zero and
    whenever either average is missing. -/
theorem trend_average_slope_spec (weekly : List WeeklyBar)
    (bench : Option (List WeeklyBar)) (i : Nat) (hi : i < weekly.length) :
    (i + 1 < SMA_WEEKS →
      ((compute_indicators weekly bench).rows.getD i default).SMA30 = none) ∧
    (SMA_WEEKS ≤ i + 1 →
      ((compute_indicators weekly bench).rows.getD i default).SMA30 =
        some (((List.range SMA_WEEKS).map
            (fun k => (weekly.map (fun b => b.Close)).getD (i - k) 0)).sum
          / (SMA_WEEKS : ℚ))) ∧
    (i = 0 →
      ((compute_indicators weekly bench).rows.getD i default).SMA30_slope = none) ∧
    (1 ≤ i →
      (∀ a b, ((compute_indicators weekly bench).rows.getD i default).SMA30 = some a →
         ((compute_indicators weekly bench).rows.getD (i - 1) default).SMA30 = some b →
         ((compute_indicators weekly bench).rows.getD i default).SMA30_slope
            = some (a - b)) ∧
      ((((compute_indicators weekly bench).rows.getD i default).SMA30 = none ∨
        ((compute_indicators weekly bench).rows.getD (i - 1) default).SMA30 = none) →
         ((compute_indicators weekly bench).rows.getD i default).SMA30_slope = none)) := by
  have hi1 : i - 1 < weekly.length := by omega
  rw [rows_getD weekly bench hi, rows_getD weekly bench hi1]
  simp only [mkIndRow]
  refine ⟨?_, ?_, ?_, ?_⟩
  · intro h
    unfold smaAt rollingMeanAt
    rw [if_pos h]
  · intro h
    unfold smaAt rollingMeanAt
    rw [if_neg (Nat.not_lt.mpr h)]
    have hlen : i < (weekly.map (fun b => b.Close)).length := by simpa using hi
    rw [take_drop_sum_eq _ i SMA_WEEKS h hlen]
  · intro h
    unfold smaSlopeAt
    rw [if_pos h]
  · intro h
    constructor
    · intro a b ha hb
      unfold smaSlopeAt
      rw [if_neg (by omega), ha, hb]
    · rintro (hn | hn)
      · unfold smaSlopeAt
        rw [if_neg (by omega), hn]
      · unfold smaSlopeAt
        rw [if_neg (by omega), hn]
        cases smaAt weekly i <;> rfl

/-- Witness for claim C6 at the window boundary row 29 of a thirty-week
    series with closes 1, 2, ..., 30. -/
theorem trend_average_slope_spec_witness :
    29 < Wlin.length ∧
    ((29 + 1 < SMA_WEEKS →
      ((compute_indicators Wlin none).rows.getD 29 default).SMA30 = none) ∧
    (SMA_WEEKS ≤ 29 + 1 →
      ((compute_indicators Wlin none).rows.getD 29 default).SMA30 =
        some (((List.range SMA_WEEKS).map
            (fun k => (Wlin.map (fun b => b.Close)).getD (29 - k) 0)).sum
          / (SMA_WEEKS : ℚ))) ∧
    (29 = 0 →
      ((compute_indicators Wlin none).rows.getD 29 default).SMA30_slope = none) ∧
    (1 ≤ 29 →
      (∀ a b, ((compute_indicators Wlin none).rows.getD 29 default).SMA30 = some a →
         ((compute_indicators Wlin none).rows.getD (29 - 1) default).SMA30 = some b →
         ((compute_indicators Wlin none).rows.getD 29 default).SMA30_slope
            = some (a - b)) ∧
      ((((compute_indicators Wlin none).rows.getD 29 default).SMA30 = none ∨
        ((compute_indicators Wlin none).rows.getD (29 - 1) default).SMA30 = none) →
         ((compute_indicators Wlin none).rows.getD 29 default).SMA30_slope = none))) :=
  ⟨by decide, trend_average_slope_spec Wlin none 29 (by decide)⟩

-- ---------------------------
-- Claim C4: relative-strength alignment, ratio and slope
-- ---------------------------

/-- The last value of a filterMap is absent iff the function is none on
    every position of the list. -/
theorem getLast?_filterMap_none {α β : Type _} (f : α → Option β) (l : List α) (d : α) :
    (l.filterMap f).getLast? = none ↔ ∀ k, k < l.length → f (l.getD k d) = none := by
  rw [List.getLast?_eq_none_iff, List.filterMap_eq_nil_iff]
  constructor
  · intro h k hk
    rw [getD_in_bounds _ hk]
    exact h _ (List.getElem_mem hk)
  · intro h x hx
    rcases List.mem_iff_getElem.mp hx with ⟨k, hk, rfl⟩
    have hk2 := h k hk
    rwa [getD_in_bounds _ hk] at hk2

/-- The last value of a filterMap is q iff some position maps to q and
    every later position maps to none. -/
theorem getLast?_filterMap_some {α β : Type _} (f : α → Option β) (l : List α) (d : α)
    (q : β) :
    (l.filterMap f).getLast? = some q ↔
      ∃ j, j < l.length ∧ f (l.getD j d) = some q ∧
        ∀ k, j < k → k < l.length → f (l.getD k d) = none := by
  induction l with
  | nil => simp
  | cons a t ih =>
    cases hfa : f a with
    | none =>
      rw [List.filterMap_cons_none hfa, ih]
      constructor
      · rintro ⟨j, hj, hfj, hrest⟩
        refine ⟨j + 1, by simpa using hj, by simpa using hfj, ?_⟩
        intro k hk1 hk2
        cases k with
        | zero => omega
        | succ k' =>
          simpa using hrest k' (by omega) (by simpa using hk2)
      · rintro ⟨j, hj, hfj, hrest⟩
        cases j with
        | zero =>
          rw [List.getD_cons_zero, hfa] at hfj
          cases hfj
        | succ j' =>
          refine ⟨j', by simpa using hj, by simpa using hfj, ?_⟩
          intro k hk1 hk2
          simpa using hrest (k + 1) (by omega) (by simpa using hk2)
    | some b =>
      rw [List.filterMap_cons_some hfa]
      by_cases ht : t.filterMap f = []
      · rw [ht]
        have hall : ∀ k, k < t.length → f (t.getD k d) = none :=
          (getLast?_filterMap_none f t d).mp (by simp [ht])
        constructor
        · intro hbq
          have hbq2 : b = q := by simpa using hbq
          refine ⟨0, by simp, by simpa [hfa] using congrArg some hbq2, ?_⟩
          intro k hk1 hk2
          cases k with
          | zero => omega
          | succ k' => simpa using hall k' (by simpa using hk2)
        · rintro ⟨j, hj, hfj, hrest⟩
          cases j with
          | zero =>
            rw [List.getD_cons_zero, hfa] at hfj
            have hbq : b = q := Option.some.inj hfj
            simp [hbq]
          | succ j' =>
            have hcontra := hall j' (by simpa using hj)
            rw [List.getD_cons_succ, hcontra] at hfj
            cases hfj
      · have hcons : (b :: t.filterMap f).getLast? = (t.filterMap f).getLast? := by
          cases hmt : t.filterMap f with
          | nil => exact absurd hmt ht
          | cons y ys => exact List.getLast?_cons_cons
        rw [hcons, ih]
        constructor
        · rintro ⟨j, hj, hfj, hrest⟩
          refine ⟨j + 1, by simpa using hj, by simpa using hfj, ?_⟩
          intro k hk1 hk2
          cases k with
          | zero => omega
          | succ k' => simpa using hrest k' (by omega) (by simpa using hk2)
        · rintro ⟨j, hj, hfj, hrest⟩
          cases j with
          | zero =>
            exfalso
            apply ht
            rw [List.filterMap_eq_nil_iff]
            intro x hx
            rcases List.mem_iff_getElem.mp hx with ⟨k, hk, rfl⟩
            have hk2 := hrest (k + 1) (by omega) (by simpa using hk)
            rw [List.getD_cons_succ] at hk2
            rwa [getD_in_bounds _ hk] at hk2
          | succ j' =>
            refine ⟨j', by simpa using hj, by simpa using hfj, ?_⟩
            intro k hk1 hk2
            simpa using hrest (k + 1) (by omega) (by simpa using hk2)


/-- Claim C4 counterexample: the instrument series Wgap has week-ends on
    days 6 and 20 and the benchmark Bgap has bars on days 6 (close 2) and
    13 (close 5).  At the instrument row of day 20 the benchmark's last
    known close is 5, so the claimed ratio is 10 / 5 = 2, but the code's
    reindex-then-ffill alignment never sees the benchmark bar of day 13
    and computes RS = 10 / 2 = 5. -/
theorem rs_alignment_spec_cex :
    ((compute_indicators Wgap (some Bgap)).rows.getD 1 default).RS = some 5 ∧
    (lastKnownBClose Bgap ((Wgap.getD 1 default).weekEnd)).map
        (fun b => (Wgap.getD 1 default).Close / b) = some 2 ∧
    ((compute_indicators Wgap (some Bgap)).rows.getD 1 default).RS ≠
      (lastKnownBClose Bgap ((Wgap.getD 1 default).weekEnd)).map
        (fun b => (Wgap.getD 1 default).Close / b) :=
  ⟨by decide, by decide, by decide⟩

/-- Claim C4 (amended): the aligned benchmark close at instrument row i is
    the benchmark's close at the latest instrument week-end at or before
    row i for which the benchmark has a bar (absent when there is none, and
    ignoring benchmark bars on week-ends the instrument series lacks); the
    relative-strength ratio is the instrument close divided by that aligned
    close, absent when it is absent; and the relative-strength slope at row
    i is ratio(i) - ratio(i - rs_lag), absent for the first rs_lag rows and
    whenever either ratio is absent. -/
theorem rs_alignment_amended (weekly bench : List WeeklyBar) (i : Nat)
    (hi : i < weekly.length) :
    (((compute_indicators weekly (some bench)).rows.getD i default).B_Close = none ↔
       ∀ k, k ≤ i →
         benchCloseAt bench ((weekly.map (fun b => b.weekEnd)).getD k 0) = none) ∧
    (∀ q, ((compute_indicators weekly (some bench)).rows.getD i default).B_Close = some q ↔
       ∃ j, j ≤ i ∧
         benchCloseAt bench ((weekly.map (fun b => b.weekEnd)).getD j 0) = some q ∧
         ∀ k, j < k → k ≤ i →
           benchCloseAt bench ((weekly.map (fun b => b.weekEnd)).getD k 0) = none) ∧
    (((compute_indicators weekly (some bench)).rows.getD i default).B_Close = none →
       ((compute_indicators weekly (some bench)).rows.getD i default).RS = none) ∧
    (∀ q, ((compute_indicators weekly (some bench)).rows.getD i default).B_Close = some q →
       ((compute_indicators weekly (some bench)).rows.getD i default).RS =
         some (((compute_indicators weekly (some bench)).rows.getD i default).Close / q)) ∧
    (i < RS_LOOKBACK →
       ((compute_indicators weekly (some bench)).rows.getD i default).RS_slope = none) ∧
    (RS_LOOKBACK ≤ i →
       (∀ a b, ((compute_indicators weekly (some bench)).rows.getD i default).RS = some a →
          ((compute_indicators weekly (some bench)).rows.getD (i - RS_LOOKBACK) default).RS
            = some b →
          ((compute_indicators weekly (some bench)).rows.getD i default).RS_slope
            = some (a - b)) ∧
       ((((compute_indicators weekly (some bench)).rows.getD i default).RS = none ∨
         ((compute_indicators weekly (some bench)).rows.getD (i - RS_LOOKBACK) default).RS
            = none) →
          ((compute_indicators weekly (some bench)).rows.getD i default).RS_slope
            = none)) := by
  have hi8 : i - RS_LOOKBACK < weekly.length := by omega
  rw [rows_getD weekly (some bench) hi, rows_getD weekly (some bench) hi8]
  simp only [mkIndRow]
  have htlen : ((weekly.map (fun b => b.weekEnd)).take (i + 1)).length = i + 1 := by
    rw [List.length_take, List.length_map]
    omega
  refine ⟨?_, ?_, ?_, ?_, ?_, ?_⟩
  · unfold bCloseAt
    rw [getLast?_filterMap_none (benchCloseAt bench) _ 0]
    constructor
    · intro h k hk
      have hk2 := h k (by omega)
      rwa [getD_take _ (by omega) 0] at hk2
    · intro h k hk
      rw [htlen] at hk
      rw [getD_take _ (by omega) 0]
      exact h k (by omega)
  · intro q
    unfold bCloseAt
    rw [getLast?_filterMap_some (benchCloseAt bench) _ 0 q]
    constructor
    · rintro ⟨j, hj, hfj, hrest⟩
      rw [htlen] at hj
      rw [getD_take _ (by omega) 0] at hfj
      refine ⟨j, by omega, hfj, ?_⟩
      intro k hk1 hk2
      have hk3 := hrest k hk1 (by rw [htlen]; omega)
      rwa [getD_take _ (by omega) 0] at hk3
    · rintro ⟨j, hj, hfj, hrest⟩
      refine ⟨j, by rw [htlen]; omega, by rwa [getD_take _ (by omega) 0], ?_⟩
      intro k hk1 hk2
      rw [htlen] at hk2
      rw [getD_take _ (by omega) 0]
      exact hrest k hk1 (by omega)
  · intro h
    unfold rsAt
    rw [h]
    rfl
  · intro q h
    unfold rsAt
    rw [h]
    rw [getD_map (fun b => b.Close) weekly hi 0 default]
    rfl
  · intro h
    unfold rsSlopeAt
    rw [if_pos h]
  · intro h
    constructor
    · intro a b ha hb
      unfold rsSlopeAt
      rw [if_neg (by omega), ha, hb]
    · rintro (hn | hn)
      · unfold rsSlopeAt
        rw [if_neg (by omega), hn]
      · unfold rsSlopeAt
        rw [if_neg (by omega), hn]
        cases rsAt weekly bench i <;> rfl

/-- Witness for the amended claim C4 at row 1 of the gapped series. -/
theorem rs_alignment_amended_witness :
    1 < Wgap.length ∧
    ((((compute_indicators Wgap (some Bgap)).rows.getD 1 default).B_Close = none ↔
       ∀ k, k ≤ 1 →
         benchCloseAt Bgap ((Wgap.map (fun b => b.weekEnd)).getD k 0) = none) ∧
    (∀ q, ((compute_indicators Wgap (some Bgap)).rows.getD 1 default).B_Close = some q ↔
       ∃ j, j ≤ 1 ∧
         benchCloseAt Bgap ((Wgap.map (fun b => b.weekEnd)).getD j 0) = some q ∧
         ∀ k, j < k → k ≤ 1 →
           benchCloseAt Bgap ((Wgap.map (fun b => b.weekEnd)).getD k 0) = none) ∧
    (((compute_indicators Wgap (some Bgap)).rows.getD 1 default).B_Close = none →
       ((compute_indicators Wgap (some Bgap)).rows.getD 1 default).RS = none) ∧
    (∀ q, ((compute_indicators Wgap (some Bgap)).rows.getD 1 default).B_Close = some q →
       ((compute_indicators Wgap (some Bgap)).rows.getD 1 default).RS =
         some (((compute_indicators Wgap (some Bgap)).rows.getD 1 default).Close / q)) ∧
    (1 < RS_LOOKBACK →
       ((compute_indicators Wgap (some Bgap)).rows.getD 1 default).RS_slope = none) ∧
    (RS_LOOKBACK ≤ 1 →
       (∀ a b, ((compute_indicators Wgap (some Bgap)).rows.getD 1 default).RS = some a →
          ((compute_indicators Wgap (some Bgap)).rows.getD (1 - RS_LOOKBACK) default).RS
            = some b →
          ((compute_indicators Wgap (some Bgap)).rows.getD 1 default).RS_slope
            = some (a - b)) ∧
       ((((compute_indicators Wgap (some Bgap)).rows.getD 1 default).RS = none ∨
         ((compute_indicators Wgap (some Bgap)).rows.getD (1 - RS_LOOKBACK) default).RS
            = none) →
          ((compute_indicators Wgap (some Bgap)).rows.getD 1 default).RS_slope
            = none))) :=
  ⟨by decide, rs_alignment_amended Wgap Bgap 1 (by decide)⟩

-- ---------------------------
-- Claim C5: daily-to-weekly aggregation
-- ---------------------------

/-- The optional last element of a cons is the defaulted last of its tail. -/
theorem getLast?_cons_getLastD {α : Type _} (b : α) (r : List α) :
    (b :: r).getLast? = some (r.getLastD b) := by
  have hmem := List.getLast_mem_getLast? (List.cons_ne_nil b r)
  rw [Option.mem_def] at hmem
  rw [hmem, List.getLast_eq_getLastD]

/-- In a day-sorted group the defaulted last bar has the largest day. -/
theorem day_le_getLastD {l : List DailyBar} (d : DailyBar)
    (hp : (d :: l).Pairwise (fun a b => a.day ≤ b.day)) :
    ∀ x ∈ d :: l, x.day ≤ (l.getLastD d).day := by
  induction l generalizing d with
  | nil =>
    intro x hx
    have hxd : x = d := by simpa using hx
    subst hxd
    exact le_refl _
  | cons c u ih =>
    intro x hx
    have hg : (c :: u).getLastD d = u.getLastD c := by
      show (c :: u).getLast (fun h => List.noConfusion h) = u.getLastD c
      exact List.getLast_eq_getLastD c u _
    rw [hg]
    rcases List.mem_cons.mp hx with rfl | hm
    · have hmem : u.getLastD c ∈ c :: u := by
        rw [← List.getLast_eq_getLastD c u (List.cons_ne_nil c u)]
        exact List.getLast_mem _
      exact (List.pairwise_cons.mp hp).1 _ hmem
    · exact ih c (List.pairwise_cons.mp hp).2 x hm

/-- Claim C5: for a day-sorted daily series, every weekly bar of to_weekly
    belongs to one Friday-ending calendar week and aggregates exactly the
    daily bars of that week: open of the earliest bar, maximum high,
    minimum low, close of the latest bar, summed volume; weeks without
    daily bars produce no weekly bar (which is how rows with missing
    aggregate fields are dropped), and every daily bar's week does appear. -/
theorem to_weekly_aggregation_spec (daily : List DailyBar)
    (hs : daily.Pairwise (fun a b => a.day ≤ b.day)) :
    (∀ wb ∈ to_weekly daily, ∃ w,
       wb.weekEnd = 7 * w + 6 ∧
       (∃ fb, (weekGroup daily w).head? = some fb ∧ wb.Open = fb.Open ∧
          ∀ b ∈ weekGroup daily w, fb.day ≤ b.day) ∧
       (∃ lb, (weekGroup daily w).getLast? = some lb ∧ wb.Close = lb.Close ∧
          ∀ b ∈ weekGroup daily w, b.day ≤ lb.day) ∧
       wb.High ∈ (weekGroup daily w).map (fun b => b.High) ∧
       (∀ b ∈ weekGroup daily w, b.High ≤ wb.High) ∧
       wb.Low ∈ (weekGroup daily w).map (fun b => b.Low) ∧
       (∀ b ∈ weekGroup daily w, wb.Low ≤ b.Low) ∧
       wb.Volume = ((weekGroup daily w).map (fun b => b.Volume)).sum) ∧
    (∀ w, weekGroup daily w = [] → ∀ wb ∈ to_weekly daily, wb.weekEnd ≠ 7 * w + 6) ∧
    (∀ b ∈ daily, ∃ wb ∈ to_weekly daily, wb.weekEnd = 7 * (b.day / 7) + 6) := by
  refine ⟨?_, ?_, ?_⟩
  · intro wb hwb
    rcases List.mem_filterMap.mp hwb with ⟨w, hw, haggr⟩
    refine ⟨w, ?_⟩
    unfold aggWeek at haggr
    cases hg : weekGroup daily w with
    | nil =>
      rw [hg] at haggr
      cases haggr
    | cons b r =>
      rw [hg] at haggr
      have hwb2 : _ = wb := Option.some.inj haggr
      subst hwb2
      have hpg : (weekGroup daily w).Pairwise (fun a b => a.day ≤ b.day) :=
        hs.filter _
      rw [hg] at hpg
      refine ⟨rfl, ?_, ?_, ?_, ?_, ?_, ?_, rfl⟩
      · refine ⟨b, rfl, rfl, ?_⟩
        intro x hx
        rcases List.mem_cons.mp hx with rfl | hm
        · exact le_refl _
        · exact (List.pairwise_cons.mp hpg).1 x hm
      · refine ⟨r.getLastD b, getLast?_cons_getLastD b r, rfl, ?_⟩
        intro x hx
        exact day_le_getLastD b hpg x hx
      · rcases foldl_max_mem (r.map (fun x => x.High)) b.High with he | he
        · rw [List.map_cons, he]
          exact List.mem_cons_self _ _
        · rw [List.map_cons]
          exact List.mem_cons_of_mem _ he
      · intro x hx
        rcases List.mem_cons.mp hx with rfl | hm
        · exact le_foldl_max _ _
        · exact mem_le_foldl_max (List.mem_map_of_mem _ hm) _
      · rcases foldl_min_mem (r.map (fun x => x.Low)) b.Low with he | he
        · rw [List.map_cons, he]
          exact List.mem_cons_self _ _
        · rw [List.map_cons]
          exact List.mem_cons_of_mem _ he
      · intro x hx
        rcases List.mem_cons.mp hx with rfl | hm
        · exact foldl_min_le _ _
        · exact foldl_min_le_mem (List.mem_map_of_mem _ hm) _
  · intro w hempty wb hwb heq
    rcases List.mem_filterMap.mp hwb with ⟨w2, hw2, haggr⟩
    unfold aggWeek at haggr
    cases hg : weekGroup daily w2 with
    | nil =>
      rw [hg] at haggr
      cases haggr
    | cons b r =>
      rw [hg] at haggr
      have hwb2 : _ = wb := Option.some.inj haggr
      have hwe : wb.weekEnd = 7 * w2 + 6 := by
        rw [← hwb2]
      have hsame : w = w2 := by
        rw [hwe] at heq
        omega
      subst hsame
      rw [hempty] at hg
      cases hg
  · intro b hb
    have hmem : b.day / 7 ∈
        List.insertionSort (fun a b => a ≤ b) ((daily.map (fun x => x.day / 7)).dedup) := by
      rw [List.mem_insertionSort, List.mem_dedup]
      exact List.mem_map_of_mem _ hb
    cases hg : weekGroup daily (b.day / 7) with
    | nil =>
      exfalso
      have hbg : b ∈ weekGroup daily (b.day / 7) := by
        unfold weekGroup
        rw [List.mem_filter]
        exact ⟨hb, by simp⟩
      rw [hg] at hbg
      cases hbg
    | cons c r =>
      refine ⟨{ weekEnd := 7 * (b.day / 7) + 6
              , Open := c.Open
              , High := (r.map (fun x => x.High)).foldl max c.High
              , Low := (r.map (fun x => x.Low)).foldl min c.Low
              , Close := (r.getLastD c).Close
              , Volume := ((c :: r).map (fun x => x.Volume)).sum }, ?_, rfl⟩
      apply List.mem_filterMap.mpr
      refine ⟨b.day / 7, hmem, ?_⟩
      unfold aggWeek
      rw [hg]

/-- Witness for claim C5 on three daily bars spanning two calendar weeks. -/
theorem to_weekly_aggregation_spec_witness :
    Ddaily.Pairwise (fun a b => a.day ≤ b.day) ∧
    ((∀ wb ∈ to_weekly Ddaily, ∃ w,
       wb.weekEnd = 7 * w + 6 ∧
       (∃ fb, (weekGroup Ddaily w).head? = some fb ∧ wb.Open = fb.Open ∧
          ∀ b ∈ weekGroup Ddaily w, fb.day ≤ b.day) ∧
       (∃ lb, (weekGroup Ddaily w).getLast? = some lb ∧ wb.Close = lb.Close ∧
          ∀ b ∈ weekGroup Ddaily w, b.day ≤ lb.day) ∧
       wb.High ∈ (weekGroup Ddaily w).map (fun b => b.High) ∧
       (∀ b ∈ weekGroup Ddaily w, b.High ≤ wb.High) ∧
       wb.Low ∈ (weekGroup Ddaily w).map (fun b => b.Low) ∧
       (∀ b ∈ weekGroup Ddaily w, wb.Low ≤ b.Low) ∧
       wb.Volume = ((weekGroup Ddaily w).map (fun b => b.Volume)).sum) ∧
    (∀ w, weekGroup Ddaily w = [] → ∀ wb ∈ to_weekly Ddaily, wb.weekEnd ≠ 7 * w + 6) ∧
    (∀ b ∈ Ddaily, ∃ wb ∈ to_weekly Ddaily, wb.weekEnd = 7 * (b.day / 7) + 6)) :=
  ⟨by decide, to_weekly_aggregation_spec Ddaily (by decide)⟩
